import Mathlib

/-!
Verification of the tag-filtered task aggregation and causal-dependency
inference engine of the `logseq-quick-query` plugin (`src/index.js`).

The JavaScript source is shallowly embedded below.  Blocks, pages and tags
are records carrying exactly the fields the engine reads; the external
document store (`logseq.Editor.getBlock` / `getPage`) is a lookup function
passed in as a parameter; the asynchronous datascript query is a
`Except`-valued parameter (an exception thrown by the store corresponds to
`Except.error`); JavaScript `Set` objects holding numeric ids are `Finset Nat`;
a function that can throw is `Option`-valued, `none` marking the thrown
exception.
-/

namespace QuickQuery

/-- A tag record as returned by the datascript query in `getTags`
(`src/index.js` lines 102-119): `id`, `name` (lowercase), `original-name`,
and the `journal?` flag. -/
structure Tag where
  id : Nat
  name : String
  originalName : String
  journal? : Bool
  deriving DecidableEq, Repr

/-- A block record as used by the engine (`src/index.js`): `id`, `uuid`,
`parent.id` (absent for a page), `page.id`, the `children` array of
`["uuid", uuid]` pairs, the optional `properties` map (string keys to string
values; only string comparisons against `"number"` occur in the source),
the `properties-order` key list, and `path-refs` projected to its ids
(the source always immediately maps `(obj) => obj.id` over `path-refs`). -/
structure Block where
  id : Nat
  uuid : String
  parentId : Option Nat
  pageId : Nat
  children : List (String × String)
  properties : Option (List (String × String))
  propertiesOrder : List String
  pathRefs : List Nat
  deriving DecidableEq, Repr

/-- `isPage` (`src/index.js` lines 434-437): a page is a block without a
parent. -/
def isPage (block : Block) : Bool :=
  block.parentId.isNone

/-- `isOrderedBlock` (`src/index.js` lines 440-447): a block is ordered iff
its `properties` exist and carry `logseq.order-list-type = "number"` or
`logseq.orderListType = "number"`. -/
def isOrderedBlock (block : Block) : Bool :=
  match block.properties with
  | none => false
  | some props =>
    (List.lookup "logseq.order-list-type" props == some "number") ||
    (List.lookup "logseq.orderListType" props == some "number")

/-- `getAncestors` (`src/index.js` lines 421-431), with the document store
(`logseq.Editor.getBlock(id) || logseq.Editor.getPage(id)`) abstracted as
the lookup `store` and the `while` loop unrolled on an explicit `fuel`
bound.  `none` means the loop either exhausted the fuel (the JS loop would
still be running) or a parent lookup failed to resolve (the JS code would
crash dereferencing `null`). -/
def getAncestorsFuel (store : Nat → Option Block) : Nat → Block → Option (List Block)
  | 0, block => if isPage block then some [] else none
  | fuel + 1, block =>
    if isPage block then some []
    else
      match block.parentId with
      | none => some []
      | some pid =>
        match store pid with
        | none => none
        | some parent =>
          match getAncestorsFuel store fuel parent with
          | none => none
          | some rest => some (parent :: rest)

/-- The parent chain of a block in a given store: `chain` lists the
successive parents of `block`, each obtained by a resolving store lookup,
ending at a block with no parent (the page).  An empty chain means `block`
itself has no parent. -/
def IsParentChain (store : Nat → Option Block) : Block → List Block → Prop
  | block, [] => block.parentId = none
  | block, parent :: rest =>
    ∃ pid, block.parentId = some pid ∧ store pid = some parent ∧
      IsParentChain store parent rest

/-- JavaScript `Array.prototype.indexOf`: index of the first occurrence,
`-1` when absent. -/
def jsIndexOf (l : List String) (x : String) : Int :=
  match List.findIdx? (fun y => y == x) l with
  | none => -1
  | some i => (i : Int)

/-- The inner `for (const c2 of ...)` loop of `compareTasks`
(`src/index.js` lines 367-379): scan `anc2` for a block whose id equals
`c1.id`; on a hit return the nearest common ancestor (`c1`) together with
the value `furthestUncommonAncestor2` held just before the hit. -/
def innerScan (c1 : Block) (fua2 : Block) : List Block → Option (Block × Block)
  | [] => none
  | c2 :: rest => if c1.id = c2.id then some (c1, fua2) else innerScan c1 c2 rest

/-- The outer `for (const c1 of ...)` loop of `compareTasks`
(`src/index.js` lines 367-379): for each `c1` in `anc1`, run `innerScan`
over `anc2` with `furthestUncommonAncestor2` reset to `t2`; on a hit return
`(nearestCommonAncestor, furthestUncommonAncestor1, furthestUncommonAncestor2)`. -/
def outerScan (t2 : Block) (anc2 : List Block) (fua1 : Block) :
    List Block → Option (Block × Block × Block)
  | [] => none
  | c1 :: rest =>
    match innerScan c1 t2 anc2 with
    | some (nca, fua2) => some (nca, fua1, fua2)
    | none => outerScan t2 anc2 c1 rest

/-- `compareTasks` (`src/index.js` lines 313-417).  Returns `some c` with
`c` negative when `t1` is a dependency (prerequisite) of `t2`, positive
when `t1` depends on `t2`, zero when independent; returns `none` when the
source throws (`"Programming error finding common ancestor of tasks"`,
i.e. the nested loops found no common ancestor). -/
def compareTasks (t1 t2 : Block) (ancestors : Nat → List Block) : Option Int :=
  if t1.pageId ≠ t2.pageId then some 0
  else if (ancestors t1.id).any (fun a => a.id == t2.id) then some (-1)
  else if (ancestors t2.id).any (fun a => a.id == t1.id) then some 1
  else
    match outerScan t2 (ancestors t2.id) t1 (ancestors t1.id) with
    | none => none
    | some (nca, fua1, fua2) =>
      if isOrderedBlock fua1 && isOrderedBlock fua2 then
        let children := nca.children.map (fun c => c.2)
        let index1 := jsIndexOf children fua1.uuid
        let index2 := jsIndexOf children fua2.uuid
        if index1 < index2 then some (-1) else some 1
      else some 0

/-- All index pairs `(i, j)` with `i < j` of the double loop in
`getDependentTaskIDs` (`src/index.js` lines 277-302), as the list of task
pairs in iteration order. -/
def orderedPairs : List α → List (α × α)
  | [] => []
  | t :: ts => ts.map (fun u => (t, u)) ++ orderedPairs ts

/-- One iteration of the double loop body of `getDependentTaskIDs`
(`src/index.js` lines 281-294): compare the pair and add the id of the
dependent side (`t2.id` when the comparison is negative, `t1.id` when it is
positive) to the accumulated set. -/
def dependentStep (ancestors : Nat → List Block) (acc : Finset Nat)
    (p : Block × Block) : Option (Finset Nat) :=
  match compareTasks p.1 p.2 ancestors with
  | none => none
  | some c =>
    some (if c < 0 then insert p.2.id acc else if c > 0 then insert p.1.id acc else acc)

/-- `getDependentTaskIDs` (`src/index.js` lines 263-307), with the
precomputed `ancestors` dictionary (task id to ancestor list) passed as a
function.  `none` when some comparison throws. -/
def getDependentTaskIDs (tasks : List Block) (ancestors : Nat → List Block) :
    Option (Finset Nat) :=
  (orderedPairs tasks).foldlM (dependentStep ancestors) ∅

/-! ### Lemmas about the double loop of `getDependentTaskIDs` -/

theorem dependentStep_superset {anc : Nat → List Block} {acc acc' : Finset Nat}
    {p : Block × Block} (h : dependentStep anc acc p = some acc') : acc ⊆ acc' := by
  unfold dependentStep at h
  cases hc : compareTasks p.1 p.2 anc with
  | none => rw [hc] at h; cases h
  | some c =>
    rw [hc] at h
    injection h with h
    subst h
    split
    · exact Finset.subset_insert _ _
    · split
      · exact Finset.subset_insert _ _
      · exact Finset.Subset.refl _

theorem subset_of_foldlM_dependentStep {anc : Nat → List Block} :
    ∀ (l : List (Block × Block)) (acc s : Finset Nat),
      l.foldlM (dependentStep anc) acc = some s → acc ⊆ s
  | [], acc, s, h => by
    simp only [List.foldlM_nil, pure, Option.some.injEq] at h
    exact h ▸ Finset.Subset.refl _
  | p :: l, acc, s, h => by
    rw [List.foldlM_cons] at h
    cases hc : dependentStep anc acc p with
    | none => rw [hc] at h; cases h
    | some acc' =>
      rw [hc] at h
      simp only [Option.bind_eq_bind, Option.some_bind] at h
      exact (dependentStep_superset hc).trans (subset_of_foldlM_dependentStep l acc' s h)

theorem mem_of_foldlM_dependentStep {anc : Nat → List Block} {c : Int} :
    ∀ (l : List (Block × Block)) (acc s : Finset Nat) (p : Block × Block),
      p ∈ l → l.foldlM (dependentStep anc) acc = some s →
      compareTasks p.1 p.2 anc = some c →
      (c < 0 → p.2.id ∈ s) ∧ (0 < c → p.1.id ∈ s)
  | q :: l, acc, s, p, hp, hf, hc => by
    rw [List.foldlM_cons] at hf
    cases hq : dependentStep anc acc q with
    | none => rw [hq] at hf; cases hf
    | some acc' =>
      rw [hq] at hf
      simp only [Option.bind_eq_bind, Option.some_bind] at hf
      rcases List.mem_cons.mp hp with rfl | hp'
      · have hsub : acc' ⊆ s := subset_of_foldlM_dependentStep l acc' s hf
        unfold dependentStep at hq
        rw [hc] at hq
        injection hq with hq
        constructor
        · intro hneg
          apply hsub
          rw [← hq, if_pos hneg]
          exact Finset.mem_insert_self _ _
        · intro hpos
          apply hsub
          rw [← hq, if_neg (by omega), if_pos hpos]
          exact Finset.mem_insert_self _ _
      · exact mem_of_foldlM_dependentStep l acc' s p hp' hf hc

theorem mem_orderedPairs_of_mem {a b : α} :
    ∀ {l : List α}, a ∈ l → b ∈ l → a ≠ b →
      (a, b) ∈ orderedPairs l ∨ (b, a) ∈ orderedPairs l
  | x :: l, ha, hb, hne => by
    simp only [orderedPairs, List.mem_append, List.mem_map]
    rcases List.mem_cons.mp ha with rfl | ha'
    · rcases List.mem_cons.mp hb with rfl | hb'
      · exact absurd rfl hne
      · exact Or.inl (Or.inl ⟨b, hb', rfl⟩)
    · rcases List.mem_cons.mp hb with rfl | hb'
      · exact Or.inr (Or.inl ⟨a, ha', rfl⟩)
      · rcases mem_orderedPairs_of_mem ha' hb' hne with h | h
        · exact Or.inl (Or.inr h)
        · exact Or.inr (Or.inr h)

/-! ### The ancestor branches of `compareTasks` -/

theorem compareTasks_of_ancestor_mem {t1 t2 : Block} {anc : Nat → List Block}
    (hpage : t1.pageId = t2.pageId)
    (hanc : ∃ a ∈ anc t1.id, a.id = t2.id) :
    compareTasks t1 t2 anc = some (-1) := by
  have hb : (anc t1.id).any (fun a => a.id == t2.id) = true := by
    rw [List.any_eq_true]
    obtain ⟨a, ha, hid⟩ := hanc
    exact ⟨a, ha, by simpa using hid⟩
  unfold compareTasks
  rw [if_neg (by simp [hpage]), if_pos hb]

theorem compareTasks_of_ancestor_mem_rev {t1 t2 : Block} {anc : Nat → List Block}
    (hpage : t1.pageId = t2.pageId)
    (hnot : ∀ a ∈ anc t1.id, a.id ≠ t2.id)
    (hanc : ∃ a ∈ anc t2.id, a.id = t1.id) :
    compareTasks t1 t2 anc = some 1 := by
  have hb1 : (anc t1.id).any (fun a => a.id == t2.id) = false := by
    rw [List.any_eq_false]
    intro x hx
    simpa using hnot x hx
  have hb2 : (anc t2.id).any (fun a => a.id == t1.id) = true := by
    rw [List.any_eq_true]
    obtain ⟨a, ha, hid⟩ := hanc
    exact ⟨a, ha, by simpa using hid⟩
  unfold compareTasks
  rw [if_neg (by simp [hpage]), if_neg (by simp [hb1]), if_pos hb2]

/-! ### Characterization of the nearest-common-ancestor scan -/

theorem innerScan_eq_none {c1 : Block} :
    ∀ {fua2 : Block} {l : List Block},
      (∀ x ∈ l, c1.id ≠ x.id) → innerScan c1 fua2 l = none
  | _, [], _ => rfl
  | fua2, c2 :: rest, h => by
    unfold innerScan
    rw [if_neg (h c2 (List.mem_cons_self _ _))]
    exact innerScan_eq_none (fun x hx => h x (List.mem_cons_of_mem _ hx))

theorem innerScan_found {c1 : Block} {B : Block} (hid : c1.id = B.id) :
    ∀ (p2 : List Block) (fua2 : Block) (r2 : List Block),
      (∀ y ∈ p2, c1.id ≠ y.id) →
      innerScan c1 fua2 (p2 ++ B :: r2) = some (c1, p2.getLastD fua2)
  | [], fua2, r2, _ => by
    rw [List.nil_append]
    unfold innerScan
    rw [if_pos hid]
    rfl
  | y :: p2, fua2, r2, h => by
    rw [List.cons_append]
    unfold innerScan
    rw [if_neg (h y (List.mem_cons_self _ _)),
      innerScan_found hid p2 y r2 (fun x hx => h x (List.mem_cons_of_mem _ hx)),
      List.getLastD_cons]

theorem outerScan_found (t2 : Block) (p2 : List Block) (B : Block) (r2 : List Block)
    (hp2 : ∀ y ∈ p2, B.id ≠ y.id) :
    ∀ (p1 : List Block) (fua1 : Block) (r1 : List Block),
      (∀ x ∈ p1, ∀ y ∈ p2 ++ B :: r2, x.id ≠ y.id) →
      outerScan t2 (p2 ++ B :: r2) fua1 (p1 ++ B :: r1) =
        some (B, p1.getLastD fua1, p2.getLastD t2)
  | [], fua1, r1, _ => by
    rw [List.nil_append]
    unfold outerScan
    rw [innerScan_found rfl p2 t2 r2 hp2]
    rfl
  | x :: p1, fua1, r1, hdisj => by
    rw [List.cons_append]
    unfold outerScan
    rw [innerScan_eq_none (hdisj x (List.mem_cons_self _ _)),
      outerScan_found t2 p2 B r2 hp2 p1 x r1
        (fun z hz => hdisj z (List.mem_cons_of_mem _ hz)),
      List.getLastD_cons]

/-- The sibling-branch case of `compareTasks`: when the two tasks live on the
same page, neither is an ancestor of the other, and their ancestor chains
decompose as a private part (`p1`, `p2`) followed by the shared suffix
starting at the nearest common ancestor `B`, the comparison is decided by
the ordered-block flags and child positions of the furthest uncommon
ancestors `p1.getLastD t1` and `p2.getLastD t2`. -/
theorem compareTasks_branch (t1 t2 B : Block) (anc : Nat → List Block)
    (p1 r1 p2 r2 : List Block)
    (hpage : t1.pageId = t2.pageId)
    (h1 : anc t1.id = p1 ++ B :: r1)
    (h2 : anc t2.id = p2 ++ B :: r2)
    (hna1 : ∀ a ∈ anc t1.id, a.id ≠ t2.id)
    (hna2 : ∀ a ∈ anc t2.id, a.id ≠ t1.id)
    (hdisj : ∀ x ∈ p1, ∀ y ∈ anc t2.id, x.id ≠ y.id)
    (hp2B : ∀ y ∈ p2, B.id ≠ y.id) :
    compareTasks t1 t2 anc =
      (if isOrderedBlock (p1.getLastD t1) && isOrderedBlock (p2.getLastD t2) then
        (if jsIndexOf (B.children.map (fun c => c.2)) (p1.getLastD t1).uuid <
            jsIndexOf (B.children.map (fun c => c.2)) (p2.getLastD t2).uuid
         then some (-1) else some 1)
       else some 0) := by
  have hb1 : (anc t1.id).any (fun a => a.id == t2.id) = false := by
    rw [List.any_eq_false]
    intro x hx
    simpa using hna1 x hx
  have hb2 : (anc t2.id).any (fun a => a.id == t1.id) = false := by
    rw [List.any_eq_false]
    intro x hx
    simpa using hna2 x hx
  have hdisj' : ∀ x ∈ p1, ∀ y ∈ p2 ++ B :: r2, x.id ≠ y.id := by
    intro x hx y hy
    exact hdisj x hx y (h2 ▸ hy)
  unfold compareTasks
  rw [if_neg (by simp [hpage]), if_neg (by simp [hb1]), if_neg (by simp [hb2]),
    h1, h2, outerScan_found t2 p2 B r2 hp2B p1 t1 r1 hdisj']

/-- The `filteredTasks` filtering step of `getTagsAndTasks`
(`src/index.js` lines 220-222): keep the tasks whose id is not in the
dependent-task set. -/
def removeDependentTasks (tasks : List Block) (dep : Finset Nat) : List Block :=
  tasks.filter (fun task => decide (task.id ∉ dep))

theorem dependentStep_neg {anc : Nat → List Block} {acc : Finset Nat} {t1 t2 : Block}
    (h : compareTasks t1 t2 anc = some (-1)) :
    dependentStep anc acc (t1, t2) = some (insert t2.id acc) := by
  have h' : compareTasks (t1, t2).1 (t1, t2).2 anc = some (-1) := h
  unfold dependentStep
  rw [h']
  norm_num

/-! ### Fixtures: a task nested under another task, and ordered siblings -/

/-- A page holding `outerTask`, which in turn holds `innerTask`. -/
def pageA : Block := ⟨100, "uuid-page-a", none, 100, [("uuid", "uuid-outer")], none, [], []⟩

/-- A task that is a direct child of `pageA` and the parent of `innerTask`. -/
def outerTask : Block := ⟨2, "uuid-outer", some 100, 100, [("uuid", "uuid-inner")], none, [], []⟩

/-- A task nested under `outerTask`. -/
def innerTask : Block := ⟨1, "uuid-inner", some 2, 100, [], none, [], []⟩

/-- The precomputed ancestors dictionary for the nested fixture. -/
def ancNested : Nat → List Block := fun i =>
  if i = 1 then [outerTask, pageA] else if i = 2 then [pageA] else []

/-- A page holding `blockB`. -/
def pageB : Block := ⟨200, "uuid-page-b", none, 200, [("uuid", "uuid-blk-b")], none, [], []⟩

/-- A block with three ordered children `taskA`, `taskB`, `taskC`. -/
def blockB : Block :=
  ⟨10, "uuid-blk-b", some 200, 200,
    [("uuid", "uuid-a"), ("uuid", "uuid-b"), ("uuid", "uuid-c")], none, [], []⟩

/-- First ordered sibling task. -/
def taskA : Block :=
  ⟨21, "uuid-a", some 10, 200, [], some [("logseq.order-list-type", "number")], [], []⟩

/-- Second ordered sibling task. -/
def taskB : Block :=
  ⟨22, "uuid-b", some 10, 200, [], some [("logseq.order-list-type", "number")], [], []⟩

/-- Third ordered sibling task (using the alternate property spelling). -/
def taskC : Block :=
  ⟨23, "uuid-c", some 10, 200, [], some [("logseq.orderListType", "number")], [], []⟩

/-- The precomputed ancestors dictionary for the sibling fixture. -/
def ancSib : Nat → List Block := fun i =>
  if i = 21 ∨ i = 22 ∨ i = 23 then [blockB, pageB] else []

/-! ### Claims C1 and C3: one task an ancestor of the other -/

/-- Claim C1, counterexample: `innerTask` is nested under `outerTask`
(`outerTask` appears in `innerTask`'s ancestor chain, same page), so the
claim asserts `innerTask.id` is in the set returned by
`getDependentTaskIDs`; the code instead returns `{outerTask.id}`, which
does not contain `innerTask.id`. -/
theorem C1_counterexample :
    innerTask.pageId = outerTask.pageId ∧
    (∃ a ∈ ancNested innerTask.id, a.id = outerTask.id) ∧
    getDependentTaskIDs [innerTask, outerTask] ancNested = some {outerTask.id} ∧
    innerTask.id ∉ ({outerTask.id} : Finset Nat) := by
  decide

/-- Claim C1, amended: for tasks `t1`, `t2` in the input on the same page
where `t2` appears in `t1`'s ancestor chain (and, per the forest
invariant, `t1` is not in `t2`'s chain), the Dependency Classifier treats
`t1` as the prerequisite of `t2` and therefore adds the id of the
*dependent* task `t2` — not `t1` — to the set returned by
`getDependentTaskIDs`, that set being the ids of tasks that depend on some
other task in the input and are suppressed from the output. -/
theorem C1_amended (tasks : List Block) (anc : Nat → List Block)
    (t1 t2 : Block) (s : Finset Nat)
    (ht1 : t1 ∈ tasks) (ht2 : t2 ∈ tasks) (hne : t1 ≠ t2)
    (hpage : t1.pageId = t2.pageId)
    (hanc : ∃ a ∈ anc t1.id, a.id = t2.id)
    (hacyc : ∀ a ∈ anc t2.id, a.id ≠ t1.id)
    (hres : getDependentTaskIDs tasks anc = some s) :
    t2.id ∈ s := by
  have hres' : (orderedPairs tasks).foldlM (dependentStep anc) ∅ = some s := hres
  rcases mem_orderedPairs_of_mem ht1 ht2 hne with hp | hp
  · have hc := compareTasks_of_ancestor_mem hpage hanc
    exact (mem_of_foldlM_dependentStep (orderedPairs tasks) ∅ s (t1, t2) hp hres' hc).1
      (by norm_num)
  · have hc := compareTasks_of_ancestor_mem_rev hpage.symm hacyc hanc
    exact (mem_of_foldlM_dependentStep (orderedPairs tasks) ∅ s (t2, t1) hp hres' hc).2
      (by norm_num)

/-- Claim C1, witness: the amended statement instantiated on the nested
fixture. -/
theorem C1_amended_witness :
    ∃ s : Finset Nat,
      getDependentTaskIDs [innerTask, outerTask] ancNested = some s ∧ outerTask.id ∈ s :=
  ⟨{outerTask.id}, by decide,
    C1_amended [innerTask, outerTask] ancNested innerTask outerTask {outerTask.id}
      (by decide) (by decide) (by decide) (by decide) (by decide) (by decide) (by decide)⟩

/-- Claim C3: for tasks `t1`, `t2` in the input on the same page where `t1`
is a structural ancestor of `t2` (`t1` appears in `t2`'s ancestor chain,
and by the forest invariant `t2` is not in `t1`'s), the classifier adds
`t1.id` to the set returned by `getDependentTaskIDs`, with no assumption on
the ordered/unordered status of any block. -/
theorem C3_ancestor_id_in_set (tasks : List Block) (anc : Nat → List Block)
    (t1 t2 : Block) (s : Finset Nat)
    (ht1 : t1 ∈ tasks) (ht2 : t2 ∈ tasks) (hne : t1 ≠ t2)
    (hpage : t1.pageId = t2.pageId)
    (hanc : ∃ a ∈ anc t2.id, a.id = t1.id)
    (hacyc : ∀ a ∈ anc t1.id, a.id ≠ t2.id)
    (hres : getDependentTaskIDs tasks anc = some s) :
    t1.id ∈ s := by
  have hres' : (orderedPairs tasks).foldlM (dependentStep anc) ∅ = some s := hres
  rcases mem_orderedPairs_of_mem ht1 ht2 hne with hp | hp
  · have hc := compareTasks_of_ancestor_mem_rev hpage hacyc hanc
    exact (mem_of_foldlM_dependentStep (orderedPairs tasks) ∅ s (t1, t2) hp hres' hc).2
      (by norm_num)
  · have hc := compareTasks_of_ancestor_mem hpage.symm hanc
    exact (mem_of_foldlM_dependentStep (orderedPairs tasks) ∅ s (t2, t1) hp hres' hc).1
      (by norm_num)

/-- Claim C3, witness: instantiated with `outerTask` the ancestor of
`innerTask`. -/
theorem C3_witness :
    ∃ s : Finset Nat,
      getDependentTaskIDs [outerTask, innerTask] ancNested = some s ∧ outerTask.id ∈ s :=
  ⟨{outerTask.id}, by decide,
    C3_ancestor_id_in_set [outerTask, innerTask] ancNested outerTask innerTask {outerTask.id}
      (by decide) (by decide) (by decide) (by decide) (by decide) (by decide) (by decide)⟩

/-! ### Claim C2: three explicitly ordered sibling branches -/

/-- Claim C2, counterexample: three explicitly numbered sibling tasks
`taskA`, `taskB`, `taskC` in that order in `blockB`'s children; the
returned set is `{taskB.id, taskC.id}` — not `{taskA.id, taskB.id}` as
claimed — so the remaining task is `taskA`, not `taskC`. -/
theorem C2_counterexample :
    isOrderedBlock taskA = true ∧ isOrderedBlock taskB = true ∧
    isOrderedBlock taskC = true ∧
    jsIndexOf (blockB.children.map (fun x => x.2)) taskA.uuid <
      jsIndexOf (blockB.children.map (fun x => x.2)) taskB.uuid ∧
    jsIndexOf (blockB.children.map (fun x => x.2)) taskB.uuid <
      jsIndexOf (blockB.children.map (fun x => x.2)) taskC.uuid ∧
    getDependentTaskIDs [taskA, taskB, taskC] ancSib = some {taskC.id, taskB.id} ∧
    getDependentTaskIDs [taskA, taskB, taskC] ancSib ≠ some {taskA.id, taskB.id} ∧
    removeDependentTasks [taskA, taskB, taskC] {taskC.id, taskB.id} ≠ [taskC] := by
  decide

/-- Claim C2, amended: for three tasks `a`, `b`, `c` on one page whose
furthest uncommon ancestors under the nearest common ancestor `B` are all
explicitly ordered and appear in the order a, b, c in `B`'s children list,
every pairwise comparison makes the earlier task the prerequisite, so
`getDependentTaskIDs` returns `{b.id, c.id}` (the ids of the *later*,
dependent tasks) and only `a` survives the dependency filter. -/
theorem C2_amended (a b c B : Block) (anc : Nat → List Block)
    (pa ra pb rb pc rc : List Block)
    (hpab : a.pageId = b.pageId) (hpac : a.pageId = c.pageId)
    (hA : anc a.id = pa ++ B :: ra)
    (hB : anc b.id = pb ++ B :: rb)
    (hC : anc c.id = pc ++ B :: rc)
    (hnab : ∀ x ∈ anc a.id, x.id ≠ b.id)
    (hnba : ∀ x ∈ anc b.id, x.id ≠ a.id)
    (hnac : ∀ x ∈ anc a.id, x.id ≠ c.id)
    (hnca : ∀ x ∈ anc c.id, x.id ≠ a.id)
    (hnbc : ∀ x ∈ anc b.id, x.id ≠ c.id)
    (hncb : ∀ x ∈ anc c.id, x.id ≠ b.id)
    (hdab : ∀ x ∈ pa, ∀ y ∈ anc b.id, x.id ≠ y.id)
    (hdac : ∀ x ∈ pa, ∀ y ∈ anc c.id, x.id ≠ y.id)
    (hdbc : ∀ x ∈ pb, ∀ y ∈ anc c.id, x.id ≠ y.id)
    (hpbB : ∀ y ∈ pb, B.id ≠ y.id)
    (hpcB : ∀ y ∈ pc, B.id ≠ y.id)
    (hoa : isOrderedBlock (pa.getLastD a) = true)
    (hob : isOrderedBlock (pb.getLastD b) = true)
    (hoc : isOrderedBlock (pc.getLastD c) = true)
    (hab : jsIndexOf (B.children.map (fun x => x.2)) (pa.getLastD a).uuid <
           jsIndexOf (B.children.map (fun x => x.2)) (pb.getLastD b).uuid)
    (hbc : jsIndexOf (B.children.map (fun x => x.2)) (pb.getLastD b).uuid <
           jsIndexOf (B.children.map (fun x => x.2)) (pc.getLastD c).uuid)
    (haneb : a.id ≠ b.id) (hanec : a.id ≠ c.id) :
    getDependentTaskIDs [a, b, c] anc = some {b.id, c.id} ∧
    removeDependentTasks [a, b, c] {b.id, c.id} = [a] := by
  have e1 : compareTasks a b anc = some (-1) := by
    rw [compareTasks_branch a b B anc pa ra pb rb hpab hA hB hnab hnba hdab hpbB,
      if_pos (by rw [hoa, hob]; rfl), if_pos hab]
  have e2 : compareTasks a c anc = some (-1) := by
    rw [compareTasks_branch a c B anc pa ra pc rc hpac hA hC hnac hnca hdac hpcB,
      if_pos (by rw [hoa, hoc]; rfl), if_pos (lt_trans hab hbc)]
  have e3 : compareTasks b c anc = some (-1) := by
    rw [compareTasks_branch b c B anc pb rb pc rc (hpab.symm.trans hpac) hB hC
        hnbc hncb hdbc hpcB,
      if_pos (by rw [hob, hoc]; rfl), if_pos hbc]
  constructor
  · have hop : orderedPairs [a, b, c] = [(a, b), (a, c), (b, c)] := rfl
    unfold getDependentTaskIDs
    rw [hop, List.foldlM_cons, dependentStep_neg e1]
    simp only [Option.bind_eq_bind, Option.some_bind]
    rw [List.foldlM_cons, dependentStep_neg e2]
    simp only [Option.bind_eq_bind, Option.some_bind]
    rw [List.foldlM_cons, dependentStep_neg e3]
    simp only [Option.bind_eq_bind, Option.some_bind]
    rw [List.foldlM_nil]
    show some (insert c.id (insert c.id (insert b.id ∅))) = _
    rw [Finset.insert_idem, Finset.insert_empty]
    exact congrArg some (Finset.pair_comm c.id b.id)
  · unfold removeDependentTasks
    simp [haneb, hanec]

/-- Claim C2, witness: the amended statement instantiated on the ordered
sibling fixture. -/
theorem C2_amended_witness :
    getDependentTaskIDs [taskA, taskB, taskC] ancSib = some {taskB.id, taskC.id} ∧
    removeDependentTasks [taskA, taskB, taskC] {taskB.id, taskC.id} = [taskA] :=
  C2_amended taskA taskB taskC blockB ancSib [] [pageB] [] [pageB] [] [pageB]
    (by decide) (by decide) (by decide) (by decide) (by decide) (by decide) (by decide)
    (by decide) (by decide) (by decide) (by decide) (by decide) (by decide) (by decide)
    (by decide) (by decide) (by decide) (by decide) (by decide) (by decide) (by decide)
    (by decide) (by decide)

/-! ### Claim C8: an unordered side makes the pair independent -/

/-- A page holding `blockB2`. -/
def pageC : Block := ⟨300, "uuid-page-c", none, 300, [("uuid", "uuid-blk-b2")], none, [], []⟩

/-- A block with children `taskD` (unordered) and `taskE` (ordered). -/
def blockB2 : Block :=
  ⟨11, "uuid-blk-b2", some 300, 300, [("uuid", "uuid-d"), ("uuid", "uuid-e")], none, [], []⟩

/-- A sibling task with no properties, hence not an ordered block. -/
def taskD : Block := ⟨24, "uuid-d", some 11, 300, [], none, [], []⟩

/-- A sibling task explicitly marked as a numbered-list block. -/
def taskE : Block :=
  ⟨25, "uuid-e", some 11, 300, [], some [("logseq.orderListType", "number")], [], []⟩

/-- The precomputed ancestors dictionary for the mixed sibling fixture. -/
def ancSib2 : Nat → List Block := fun i =>
  if i = 24 ∨ i = 25 then [blockB2, pageC] else []

/-- Claim C8: for same-page tasks with neither an ancestor of the other,
if either furthest-uncommon-ancestor node is not explicitly ordered then
`compareTasks` returns 0 and the loop body adds neither id to the set;
moreover a block counts as explicitly ordered exactly when its properties
carry one of the two accepted key spellings with value `"number"`. -/
theorem C8_unordered_independent (t1 t2 B : Block) (anc : Nat → List Block)
    (p1 r1 p2 r2 : List Block) (acc : Finset Nat)
    (hpage : t1.pageId = t2.pageId)
    (h1 : anc t1.id = p1 ++ B :: r1)
    (h2 : anc t2.id = p2 ++ B :: r2)
    (hna1 : ∀ a ∈ anc t1.id, a.id ≠ t2.id)
    (hna2 : ∀ a ∈ anc t2.id, a.id ≠ t1.id)
    (hdisj : ∀ x ∈ p1, ∀ y ∈ anc t2.id, x.id ≠ y.id)
    (hp2B : ∀ y ∈ p2, B.id ≠ y.id)
    (hunord : isOrderedBlock (p1.getLastD t1) = false ∨
              isOrderedBlock (p2.getLastD t2) = false) :
    compareTasks t1 t2 anc = some 0 ∧
    dependentStep anc acc (t1, t2) = some acc ∧
    (∀ b : Block, isOrderedBlock b = true ↔
      ∃ props, b.properties = some props ∧
        (List.lookup "logseq.order-list-type" props = some "number" ∨
         List.lookup "logseq.orderListType" props = some "number")) := by
  have hcond : (isOrderedBlock (p1.getLastD t1) && isOrderedBlock (p2.getLastD t2)) = false := by
    rcases hunord with h | h
    · rw [h, Bool.false_and]
    · rw [h, Bool.and_false]
  have h0 : compareTasks t1 t2 anc = some 0 := by
    rw [compareTasks_branch t1 t2 B anc p1 r1 p2 r2 hpage h1 h2 hna1 hna2 hdisj hp2B]
    rw [if_neg (by rw [hcond]; exact Bool.false_ne_true)]
  refine ⟨h0, ?_, ?_⟩
  · have h0' : compareTasks (t1, t2).1 (t1, t2).2 anc = some 0 := h0
    unfold dependentStep
    rw [h0']
    norm_num
  · intro b
    cases hb : b.properties with
    | none => simp [isOrderedBlock, hb]
    | some props => simp [isOrderedBlock, hb]

/-- Claim C8, witness: instantiated on the mixed sibling fixture, where
`taskD` is unordered. -/
theorem C8_witness :
    compareTasks taskD taskE ancSib2 = some 0 ∧
    dependentStep ancSib2 ∅ (taskD, taskE) = some ∅ ∧
    (∀ b : Block, isOrderedBlock b = true ↔
      ∃ props, b.properties = some props ∧
        (List.lookup "logseq.order-list-type" props = some "number" ∨
         List.lookup "logseq.orderListType" props = some "number")) :=
  C8_unordered_independent taskD taskE blockB2 ancSib2 [] [pageC] [] [pageC] ∅
    (by decide) (by decide) (by decide) (by decide) (by decide) (by decide) (by decide)
    (by decide)

/-! ### Claim C9: termination and shape of `getAncestors` -/

/-- The store for the nested fixture. -/
def storeNested : Nat → Option Block := fun i =>
  if i = 2 then some outerTask else if i = 100 then some pageA else none

/-- Claim C9: for a node whose parent chain is finite, acyclic and fully
resolving (witnessed by `IsParentChain`), `getAncestors` terminates — any
fuel bound at least the chain's length yields the same result, so the loop
never runs forever — and returns the ancestors nearest-first, the last
element being the owning page (a block with no parent). -/
theorem C9_ancestors_terminate (store : Nat → Option Block) :
    ∀ (chain : List Block) (block : Block), IsParentChain store block chain →
      ∀ fuel : Nat, chain.length ≤ fuel →
        getAncestorsFuel store fuel block = some chain ∧
        ∀ p : Block, chain.getLast? = some p → isPage p = true
  | [], block, hchain, fuel, _ => by
    constructor
    · have hpg : isPage block = true := by
        unfold IsParentChain at hchain
        simp [isPage, hchain]
      cases fuel with
      | zero => unfold getAncestorsFuel; rw [if_pos hpg]
      | succ f => unfold getAncestorsFuel; rw [if_pos hpg]
    · intro p hp
      cases hp
  | parent :: rest, block, hchain, fuel, hfuel => by
    unfold IsParentChain at hchain
    obtain ⟨pid, hpid, hstore, hrest⟩ := hchain
    cases fuel with
    | zero => simp at hfuel
    | succ f =>
      have hf : rest.length ≤ f := by
        simp only [List.length_cons] at hfuel
        omega
      obtain ⟨ih1, ih2⟩ := C9_ancestors_terminate store rest parent hrest f hf
      constructor
      · unfold getAncestorsFuel
        rw [if_neg (by simp [isPage, hpid])]
        simp only [hpid, hstore, ih1]
      · intro p hp
        cases hr : rest with
        | nil =>
          subst hr
          simp only [List.getLast?_singleton, Option.some.injEq] at hp
          have hpar : parent.parentId = none := hrest
          rw [← hp]
          simp [isPage, hpar]
        | cons q qs =>
          subst hr
          rw [List.getLast?_cons_cons] at hp
          exact ih2 p hp

/-- Claim C9, witness: the chain of `innerTask` in the nested store. -/
theorem C9_witness :
    getAncestorsFuel storeNested 5 innerTask = some [outerTask, pageA] ∧
    ∀ p : Block, ([outerTask, pageA] : List Block).getLast? = some p → isPage p = true :=
  C9_ancestors_terminate storeNested [outerTask, pageA] innerTask
    ⟨2, rfl, rfl, 100, rfl, rfl, rfl⟩ 5 (by decide)

/-! ### Claim C5: the collector absorbs store failures -/

/-- `getTasks` (`src/index.js` lines 71-86).  `queryResult` is the outcome
of the awaited `logseq.DB.datascriptQuery` call: `Except.error` is a thrown
exception, which the source catches and logs, leaving `ret` undefined so
that `(ret || []).flat()` evaluates to `[]`; `Except.ok` carries the list
of single-task rows, flattened one level by `.flat()`. -/
def getTasks (queryResult : Except String (List (List Block))) : List Block :=
  match queryResult with
  | Except.error _ => []
  | Except.ok ret => ret.flatten

/-- `getTags` (`src/index.js` lines 102-119), identical error handling to
`getTasks`. -/
def getTags (queryResult : Except String (List (List Tag))) : List Tag :=
  match queryResult with
  | Except.error _ => []
  | Except.ok ret => ret.flatten

/-- Claim C5: on any document-store failure, `getTasks` and `getTags`
return the empty sequence (they are total, so the exception never reaches
the caller), and the failing outcome is indistinguishable from a
legitimately empty query result. -/
theorem C5_store_failure_absorbed :
    (∀ e : String, getTasks (Except.error e) = []) ∧
    (∀ e : String, getTasks (Except.error e) = getTasks (Except.ok [])) ∧
    (∀ e : String, getTags (Except.error e) = []) ∧
    (∀ e : String, getTags (Except.error e) = getTags (Except.ok [])) :=
  ⟨fun _ => rfl, fun _ => rfl, fun _ => rfl, fun _ => rfl⟩

/-! ### JavaScript string primitives -/

/-- JavaScript whitespace: the characters matched by `\s` and removed by
`String.prototype.trim` — the ECMAScript WhiteSpace set (tab, vertical
tab, form feed, space, no-break space, BOM, and every Space_Separator
character: U+1680, U+2000 through U+200A, U+202F, U+205F, U+3000)
together with the four line terminators. -/
def isJsWhitespace (c : Char) : Bool :=
  c = ' ' || c = '\t' || c = '\n' || c = '\r' || c = '\x0b' || c = '\x0c' ||
  c = '\u00A0' || c = '\u1680' || ('\u2000' ≤ c && c ≤ '\u200A') ||
  c = '\u202F' || c = '\u205F' || c = '\u3000' ||
  c = '\u2028' || c = '\u2029' || c = '\uFEFF'

/-- JavaScript line terminators: the characters a regex `.` does not match
without the `s` flag. -/
def isLineTerminator (c : Char) : Bool :=
  c = '\n' || c = '\r' || c = '\u2028' || c = '\u2029'

/-- JavaScript `String.prototype.split(",")` on a character list: split at
every comma; splitting the empty string yields `[""]`. -/
def splitComma : List Char → List (List Char)
  | [] => [[]]
  | c :: cs =>
    if c = ',' then [] :: splitComma cs
    else
      match splitComma cs with
      | [] => [[c]]
      | g :: gs => (c :: g) :: gs

/-- JavaScript `String.prototype.split(",")`. -/
def splitCommaStr (s : String) : List String :=
  (splitComma s.toList).map (fun g => String.mk g)

/-- JavaScript `String.prototype.toLowerCase()`, restricted to the ASCII
lowering `Char.toLower` (the names involved are ASCII). -/
def jsToLower (s : String) : String :=
  String.mk (s.toList.map Char.toLower)

/-- JavaScript `String.prototype.trim()`: remove leading and trailing
whitespace. -/
def trimChars (cs : List Char) : List Char :=
  ((cs.dropWhile isJsWhitespace).reverse.dropWhile isJsWhitespace).reverse

/-! ### The filter engine and result assembler (`getTagsAndTasks`) -/

/-- The `selectedTags` computation of `getTagsAndTasks` (`src/index.js`
lines 182-184): map each selected name to the first collected tag with
that name, silently dropping names with no match. -/
def selectTags (tags : List Tag) (selectedTagNames : List String) : List Tag :=
  selectedTagNames.filterMap (fun tagName => tags.find? (fun tag => tag.name == tagName))

/-- The `tasksWithTags` filter (`src/index.js` lines 204-216): keep the
tasks whose page id is not an ignored page id, whose `path-refs` ids
include every selected tag's id, and include no ignored tag's id.
`pagesToIgnore` holds the ids of the pages gathered from the ignored
namespaces (only `page.id` is read in the source). -/
def tasksWithTags (tasks : List Block) (selectedTags : List Tag)
    (tagsToIgnore : List Tag) (pagesToIgnore : List Nat) : List Block :=
  tasks.filter (fun task =>
    !(pagesToIgnore.any (fun pageId => task.pageId == pageId)) &&
    (selectedTags.all (fun tag => task.pathRefs.contains tag.id)) &&
    (tagsToIgnore.all (fun tag => !(task.pathRefs.contains tag.id))))

/-- The `taskProperties` set (`src/index.js` lines 226-228):
`new Set(filteredTasks.map((task) => task["properties-order"]).flat())`,
modelled as the flattened key list (the source only tests membership). -/
def taskPropertyNames (filteredTasks : List Block) : List String :=
  (filteredTasks.map (fun task => task.propertiesOrder)).flatten

/-- The `remainingTags` filter (`src/index.js` lines 232-253): drop
selected tags, tags naming a task property, the reserved `todo`/`doing`
names, journal tags, tags in the lowercased comma-split `tagsToHide`
setting, and tags not referenced by any remaining task. -/
def remainingTagsFilter (tags : List Tag) (selectedTagNames : List String)
    (tagsToHide : String) (filteredTasks : List Block) : List Tag :=
  tags.filter (fun tag =>
    if selectedTagNames.contains tag.name then false
    else if (taskPropertyNames filteredTasks).contains tag.name then false
    else if tag.name == "todo" || tag.name == "doing" then false
    else if tag.journal? then false
    else if (splitCommaStr (jsToLower tagsToHide)).contains tag.name then false
    else if !(filteredTasks.any (fun task => task.pathRefs.contains tag.id)) then false
    else true)

/-- `remainingTags.sort((a, b) => a.name.localeCompare(b.name))`
(`src/index.js` line 256): a stable sort by tag name under the locale
comparison `lcmp` (JavaScript `sort` with a consistent comparator),
modelled with `List.mergeSort`. -/
def remainingTagsSorted (tags : List Tag) (selectedTagNames : List String)
    (tagsToHide : String) (filteredTasks : List Block)
    (lcmp : String → String → Int) : List Tag :=
  (remainingTagsFilter tags selectedTagNames tagsToHide filteredTasks).mergeSort
    (fun a b => decide (lcmp a.name b.name ≤ 0))

/-- The result object of `getTagsAndTasks` (`src/index.js` line 258). -/
structure QueryResult where
  selectedTags : List Tag
  remainingTags : List Tag
  filteredTasks : List Block
  deriving DecidableEq, Repr

/-- `getTagsAndTasks` (`src/index.js` lines 176-259).  Parameters: the
collected `tasks` and `tags`, the parsed selected names, the resolved
ignore lists (`tagsToIgnore` resolved page records, `pagesToIgnore` the
ids gathered from the ignored namespaces), the raw `tagsToHide` setting
string, the ancestors dictionary, and the locale comparator.  Returns
`none` exactly when `getDependentTaskIDs` throws; every other path returns
`some` of an ordinary result object — in particular an empty candidate
list yields a successful triple with empty task list. -/
def getTagsAndTasks (tasks : List Block) (tags : List Tag)
    (selectedTagNames : List String) (tagsToIgnore : List Tag)
    (pagesToIgnore : List Nat) (tagsToHide : String)
    (ancestors : Nat → List Block) (lcmp : String → String → Int) :
    Option QueryResult :=
  let selectedTags := selectTags tags selectedTagNames
  let candidates := tasksWithTags tasks selectedTags tagsToIgnore pagesToIgnore
  match getDependentTaskIDs candidates ancestors with
  | none => none
  | some dep =>
    let filteredTasks := removeDependentTasks candidates dep
    some ⟨selectedTags,
      remainingTagsSorted tags selectedTagNames tagsToHide filteredTasks lcmp,
      filteredTasks⟩

/-- The rendering outcomes of `renderComponent`
(`src/index.js` lines 496-500). -/
inductive RenderOutcome
  | failure
  | listing (result : QueryResult)
  | crash
  deriving DecidableEq, Repr

/-- The outcome selection at the top of `renderComponent` (`src/index.js`
lines 496-500): a thrown exception (`none`) propagates out of the
`async` function (crash; `renderFailure` is not called on that path), and
otherwise `tagsAndTasks` is a JavaScript object, which is always truthy,
so `if (!tagsAndTasks) return renderFailure(uuid, slot)` is not taken and
the normal listing path runs. -/
def renderComponentOutcome (res : Option QueryResult) : RenderOutcome :=
  match res with
  | none => RenderOutcome.crash
  | some r => RenderOutcome.listing r

theorem getTagsAndTasks_some (tasks : List Block) (tags : List Tag)
    (selNames : List String) (tagsIgn : List Tag) (pagesIgn : List Nat)
    (hide : String) (anc : Nat → List Block) (lcmp : String → String → Int)
    (dep : Finset Nat)
    (h : getDependentTaskIDs
      (tasksWithTags tasks (selectTags tags selNames) tagsIgn pagesIgn) anc = some dep) :
    getTagsAndTasks tasks tags selNames tagsIgn pagesIgn hide anc lcmp =
      some ⟨selectTags tags selNames,
        remainingTagsSorted tags selNames hide
          (removeDependentTasks
            (tasksWithTags tasks (selectTags tags selNames) tagsIgn pagesIgn) dep) lcmp,
        removeDependentTasks
          (tasksWithTags tasks (selectTags tags selNames) tagsIgn pagesIgn) dep⟩ := by
  simp only [getTagsAndTasks, h]

/-! ### Claim C6: the candidate-task filter -/

/-- Claim C6: the candidate list `tasksWithTags` consists of exactly the
input tasks whose page is not ignored, whose `path-refs` ids include every
selected tag's id, and include no ignored tag's id; and the candidates are
a sublist of the input (original order preserved). -/
theorem C6_candidate_tasks (tasks : List Block) (selectedTags tagsToIgnore : List Tag)
    (pagesToIgnore : List Nat) :
    (∀ task : Block,
      task ∈ tasksWithTags tasks selectedTags tagsToIgnore pagesToIgnore ↔
        task ∈ tasks ∧
        (∀ pid ∈ pagesToIgnore, task.pageId ≠ pid) ∧
        (∀ tag ∈ selectedTags, tag.id ∈ task.pathRefs) ∧
        (∀ tag ∈ tagsToIgnore, tag.id ∉ task.pathRefs)) ∧
    (tasksWithTags tasks selectedTags tagsToIgnore pagesToIgnore).Sublist tasks := by
  constructor
  · intro task
    unfold tasksWithTags
    rw [List.mem_filter]
    simp [List.any_eq_true, List.all_eq_true, and_assoc]
  · exact List.filter_sublist _

/-! ### Claim C7: the remaining-tag facet list -/

/-- Claim C7: a tag is in `remainingTags` exactly when it is a collected
tag whose name is not selected, does not name a task property of the
dependency-filtered tasks, is neither `todo` nor `doing`, is not a journal
tag, is not in the lowercased comma-split hide-list, and is referenced by
at least one dependency-filtered task; the list is sorted ascending by the
locale comparator (assumed transitive and total, as a comparator must be);
in particular no selected name ever appears in it. -/
theorem C7_remaining_tags (tags : List Tag) (selectedTagNames : List String)
    (tagsToHide : String) (filteredTasks : List Block) (lcmp : String → String → Int)
    (htrans : ∀ a b c : String, lcmp a b ≤ 0 → lcmp b c ≤ 0 → lcmp a c ≤ 0)
    (htotal : ∀ a b : String, lcmp a b ≤ 0 ∨ lcmp b a ≤ 0) :
    (∀ tag : Tag,
      tag ∈ remainingTagsSorted tags selectedTagNames tagsToHide filteredTasks lcmp ↔
        tag ∈ tags ∧
        tag.name ∉ selectedTagNames ∧
        tag.name ∉ taskPropertyNames filteredTasks ∧
        tag.name ≠ "todo" ∧ tag.name ≠ "doing" ∧
        tag.journal? = false ∧
        tag.name ∉ splitCommaStr (jsToLower tagsToHide) ∧
        (∃ task ∈ filteredTasks, tag.id ∈ task.pathRefs)) ∧
    (remainingTagsSorted tags selectedTagNames tagsToHide filteredTasks lcmp).Pairwise
      (fun a b => lcmp a.name b.name ≤ 0) ∧
    (∀ tag ∈ remainingTagsSorted tags selectedTagNames tagsToHide filteredTasks lcmp,
      tag.name ∉ selectedTagNames) := by
  have hmem : ∀ tag : Tag,
      tag ∈ remainingTagsSorted tags selectedTagNames tagsToHide filteredTasks lcmp ↔
        tag ∈ tags ∧
        tag.name ∉ selectedTagNames ∧
        tag.name ∉ taskPropertyNames filteredTasks ∧
        tag.name ≠ "todo" ∧ tag.name ≠ "doing" ∧
        tag.journal? = false ∧
        tag.name ∉ splitCommaStr (jsToLower tagsToHide) ∧
        (∃ task ∈ filteredTasks, tag.id ∈ task.pathRefs) := by
    intro tag
    unfold remainingTagsSorted remainingTagsFilter
    rw [List.mem_mergeSort, List.mem_filter]
    simp [List.any_eq_true, and_assoc]
  refine ⟨hmem, ?_, fun tag ht => ((hmem tag).mp ht).2.1⟩
  have hp := @List.sorted_mergeSort Tag
    (fun a b => decide (lcmp a.name b.name ≤ 0))
    (fun a b c h1 h2 => decide_eq_true
      (htrans a.name b.name c.name (of_decide_eq_true h1) (of_decide_eq_true h2)))
    (fun a b => by rcases htotal a.name b.name with h | h <;> simp [h])
    (remainingTagsFilter tags selectedTagNames tagsToHide filteredTasks)
  exact hp.imp (fun h => of_decide_eq_true h)

/-- The tag used by the selection fixtures. -/
def tagAlpha : Tag := ⟨5, "alpha", "Alpha", false⟩

/-- Claim C7, witness: with tag `alpha` selected, `alpha` is excluded from
the remaining facet list even though it is collected. -/
theorem C7_witness :
    tagAlpha ∉ remainingTagsSorted [tagAlpha] ["alpha"] "" [] (fun _ _ => 0) := by
  have h := C7_remaining_tags [tagAlpha] ["alpha"] "" [] (fun _ _ => 0)
    (fun _ _ _ _ _ => le_refl 0) (fun _ _ => Or.inl (le_refl 0))
  intro hmem
  exact ((h.1 tagAlpha).mp hmem).2.1 (by simp [tagAlpha])

/-! ### Claim C4: empty candidate list is not a failure outcome -/

/-- A task carrying no tag references beyond its own page. -/
def task1 : Block := ⟨31, "uuid-t1", some 400, 400, [], none, [], [400]⟩

/-- Another task carrying no tag references beyond its own page. -/
def task2 : Block := ⟨32, "uuid-t2", some 400, 400, [], none, [], [400]⟩

/-- An empty ancestors dictionary (no pairs are ever compared below). -/
def ancEmpty : Nat → List Block := fun _ => []

/-- A trivial locale comparator. -/
def lcmpZero : String → String → Int := fun _ _ => 0

/-- Claim C4, code-bug evidence: selecting tag `alpha`, which neither task
references, empties the candidate list, yet `getTagsAndTasks` returns an
ordinary successful triple (selected tags resolved, empty facet list,
empty task list) and `renderComponent` takes the normal listing path: the
`renderFailure` branch tests `!tagsAndTasks`, which is never truthy
because `getTagsAndTasks` always returns an object. -/
theorem C4_empty_candidates_not_failure :
    tasksWithTags [task1, task2] (selectTags [tagAlpha] ["alpha"]) [] [] = [] ∧
    getTagsAndTasks [task1, task2] [tagAlpha] ["alpha"] [] [] "" ancEmpty lcmpZero =
      some ⟨[tagAlpha], [], []⟩ ∧
    renderComponentOutcome
        (getTagsAndTasks [task1, task2] [tagAlpha] ["alpha"] [] [] "" ancEmpty lcmpZero) ≠
      RenderOutcome.failure := by
  have hcand : tasksWithTags [task1, task2] (selectTags [tagAlpha] ["alpha"]) [] [] = [] := by
    decide
  have hres : getTagsAndTasks [task1, task2] [tagAlpha] ["alpha"] [] [] "" ancEmpty lcmpZero =
      some ⟨[tagAlpha], [], []⟩ := by
    have h := getTagsAndTasks_some [task1, task2] [tagAlpha] ["alpha"] [] [] ""
      ancEmpty lcmpZero ∅ (by rw [hcand]; rfl)
    rw [h, hcand]
    have hsort : remainingTagsSorted [tagAlpha] ["alpha"] "" (removeDependentTasks [] ∅)
        lcmpZero = [] := by
      unfold remainingTagsSorted
      rw [show remainingTagsFilter [tagAlpha] ["alpha"] ""
        (removeDependentTasks [] ∅) = [] from rfl]
      exact List.mergeSort_nil
    rw [hsort]
    rfl
  refine ⟨hcand, hres, ?_⟩
  rw [hres]
  intro h
  cases h

/-! ### Claim C10: the renderer directive round trip

`parseRendererQuery` (`src/index.js` lines 155-167) matches the block
content against the regex `/\x7b\x7brenderer :qquery,?\s*(.*)\x7d\x7d/`.
The matcher below implements exactly that regex's backtracking semantics:
leftmost starting position, the optional comma tried greedily, `\s*`
greedy with backtracking, `(.*)` greedy with backtracking where `.`
matches anything except a line terminator, and the trailing literal
braces. -/

/-- The literal part of the renderer regex. -/
def rendererLit : List Char := "\x7b\x7brenderer :qquery".toList

/-- Whether `cs` begins with the prefix `p`. -/
def startsWithChars : List Char → List Char → Bool
  | [], _ => true
  | _ :: _, [] => false
  | p :: ps, c :: cs => p = c && startsWithChars ps cs

/-- Whether two closing braces begin here. -/
def startsTwoBraces : List Char → Bool
  | '\x7d' :: '\x7d' :: _ => true
  | _ => false

/-- Whether `\x7d\x7d` occurs anywhere in the list. -/
def containsTwoBraces : List Char → Bool
  | [] => false
  | c :: cs => startsTwoBraces (c :: cs) || containsTwoBraces cs

/-- The greedy capture `(.*)\x7d\x7d`: try capturing `j` characters,
largest first, demanding the two braces right after the captured part. -/
def tryCapFrom (cs : List Char) : Nat → Option (List Char)
  | 0 => if startsTwoBraces cs then some [] else none
  | j + 1 =>
    if startsTwoBraces (cs.drop (j + 1)) then some (cs.take (j + 1))
    else tryCapFrom cs j

/-- `(.*)\x7d\x7d` at this position: the dot cannot cross a line
terminator, so the longest candidate is the longest dot-run. -/
def capHere (cs : List Char) : Option (List Char) :=
  tryCapFrom cs (cs.takeWhile (fun c => !isLineTerminator c)).length

/-- `\s*(.*)\x7d\x7d`: the whitespace star is greedy with backtracking. -/
def wsTryFrom (cs : List Char) : Nat → Option (List Char)
  | 0 => capHere cs
  | k + 1 =>
    match capHere (cs.drop (k + 1)) with
    | some r => some r
    | none => wsTryFrom cs k

/-- `\s*(.*)\x7d\x7d` with the maximal whitespace run tried first. -/
def wsCapture (cs : List Char) : Option (List Char) :=
  wsTryFrom cs (cs.takeWhile isJsWhitespace).length

/-- `,?\s*(.*)\x7d\x7d`: the optional comma is consumed first, and on
failure the comma-less alternative is tried at the same position. -/
def matchAfterLit : List Char → Option (List Char)
  | ',' :: rest =>
    (match wsCapture rest with
     | some r => some r
     | none => wsCapture (',' :: rest))
  | cs => wsCapture cs

/-- Leftmost match of the renderer regex: try each start position left to
right; at a position where the literal matches but the tail pattern fails,
move on to the next position. -/
def scanMatch : List Char → Option (List Char)
  | [] => none
  | c :: cs =>
    if startsWithChars rendererLit (c :: cs) then
      match matchAfterLit ((c :: cs).drop rendererLit.length) with
      | some r => some r
      | none => scanMatch cs
    else scanMatch cs

/-- JavaScript `Array.prototype.join(", ")` on character lists. -/
def joinComma : List (List Char) → List Char
  | [] => []
  | [t] => t
  | t :: ts => t ++ ',' :: ' ' :: joinComma ts

/-- `generateRendererQuery` (`src/index.js` lines 124-130). -/
def generateRendererQuery (tagNames : List String) : String :=
  if tagNames.isEmpty then "\x7b\x7brenderer :qquery\x7d\x7d"
  else String.mk ("\x7b\x7brenderer :qquery, ".toList ++
    joinComma (tagNames.map String.toList) ++ ['\x7d', '\x7d'])

/-- `parseRendererQuery` (`src/index.js` lines 155-167) applied to the
block's content: match the regex; when the captured group is non-empty,
split it on commas and trim each piece; otherwise return `[]`. -/
def parseRendererQuery (content : String) : List String :=
  match scanMatch content.toList with
  | none => []
  | some cap =>
    if cap.isEmpty then []
    else (splitComma cap).map (fun g => String.mk (trimChars g))

/-! ### Round-trip lemmas -/

theorem mk_toList (s : String) : String.mk s.toList = s := by
  cases s
  rfl

theorem startsWithChars_append : ∀ (p rest : List Char),
    startsWithChars p (p ++ rest) = true
  | [], _ => rfl
  | c :: p, rest => by
    simp [startsWithChars, startsWithChars_append p rest]

theorem takeWhile_all {p : Char → Bool} : ∀ {l : List Char},
    (∀ c ∈ l, p c = true) → l.takeWhile p = l
  | [], _ => rfl
  | c :: l, h => by
    rw [List.takeWhile_cons, if_pos (h c (List.mem_cons_self _ _)),
      takeWhile_all (fun x hx => h x (List.mem_cons_of_mem _ hx))]

theorem tryCapFrom_at_len : ∀ (J : List Char),
    tryCapFrom (J ++ ['\x7d', '\x7d']) J.length = some J
  | [] => rfl
  | c :: J => by
    show tryCapFrom ((c :: J) ++ ['\x7d', '\x7d']) (J.length + 1) = some (c :: J)
    unfold tryCapFrom
    have hdrop : ((c :: J) ++ ['\x7d', '\x7d']).drop (J.length + 1) = ['\x7d', '\x7d'] := by
      have e : (c :: J).length = J.length + 1 := rfl
      rw [← e, List.drop_left]
    have htake : ((c :: J) ++ ['\x7d', '\x7d']).take (J.length + 1) = c :: J := by
      have e : (c :: J).length = J.length + 1 := rfl
      rw [← e, List.take_left]
    rw [hdrop, if_pos (show startsTwoBraces ['\x7d', '\x7d'] = true from rfl), htake]

theorem tryCapFrom_succ2 (J : List Char) :
    tryCapFrom (J ++ ['\x7d', '\x7d']) (J.length + 2) = some J := by
  show tryCapFrom (J ++ ['\x7d', '\x7d']) ((J.length + 1) + 1) = some J
  have h2 : (J ++ ['\x7d', '\x7d']).drop ((J.length + 1) + 1) = [] := by
    have e : J.length + 1 + 1 = (J ++ ['\x7d', '\x7d']).length := by simp
    rw [e, List.drop_length]
  have h1 : (J ++ ['\x7d', '\x7d']).drop (J.length + 1) = ['\x7d'] := by
    have e : J ++ ['\x7d', '\x7d'] = (J ++ ['\x7d']) ++ ['\x7d'] := by simp
    have e2 : (J ++ ['\x7d']).length = J.length + 1 := by simp
    rw [e, ← e2, List.drop_left]
  unfold tryCapFrom
  rw [h2, if_neg (by decide)]
  unfold tryCapFrom
  rw [h1, if_neg (by decide)]
  exact tryCapFrom_at_len J

theorem capHere_append (J : List Char)
    (hJ : ∀ c ∈ J, isLineTerminator c = false) :
    capHere (J ++ ['\x7d', '\x7d']) = some J := by
  unfold capHere
  have htw : (J ++ ['\x7d', '\x7d']).takeWhile (fun c => !isLineTerminator c) =
      J ++ ['\x7d', '\x7d'] := by
    apply takeWhile_all
    intro c hc
    rcases List.mem_append.mp hc with h | h
    · simp [hJ c h]
    · rcases List.mem_cons.mp h with rfl | h'
      · rfl
      · rcases List.mem_cons.mp h' with rfl | h''
        · rfl
        · exact absurd h'' (List.not_mem_nil c)
  rw [htw, show (J ++ ['\x7d', '\x7d']).length = J.length + 2 by simp]
  exact tryCapFrom_succ2 J

theorem wsCapture_space (J : List Char)
    (hhead : ∀ c, J.head? = some c → isJsWhitespace c = false)
    (hJ : ∀ c ∈ J, isLineTerminator c = false) :
    wsCapture (' ' :: (J ++ ['\x7d', '\x7d'])) = some J := by
  unfold wsCapture
  have htw : (' ' :: (J ++ ['\x7d', '\x7d'])).takeWhile isJsWhitespace = [' '] := by
    rw [List.takeWhile_cons, if_pos (show isJsWhitespace ' ' = true from rfl)]
    cases J with
    | nil => rfl
    | cons c J' =>
      rw [List.cons_append, List.takeWhile_cons,
        if_neg (by simp [hhead c rfl])]
  rw [htw]
  show wsTryFrom (' ' :: (J ++ ['\x7d', '\x7d'])) (0 + 1) = some J
  unfold wsTryFrom
  rw [show (' ' :: (J ++ ['\x7d', '\x7d'])).drop (0 + 1) = J ++ ['\x7d', '\x7d'] from rfl,
    capHere_append J hJ]

theorem matchAfterLit_comma (J : List Char)
    (hhead : ∀ c, J.head? = some c → isJsWhitespace c = false)
    (hJ : ∀ c ∈ J, isLineTerminator c = false) :
    matchAfterLit (',' :: ' ' :: (J ++ ['\x7d', '\x7d'])) = some J := by
  show (match wsCapture (' ' :: (J ++ ['\x7d', '\x7d'])) with
        | some r => some r
        | none => wsCapture (',' :: ' ' :: (J ++ ['\x7d', '\x7d']))) = some J
  rw [wsCapture_space J hhead hJ]

theorem scanMatch_lit (rest r : List Char) (h : matchAfterLit rest = some r) :
    scanMatch (rendererLit ++ rest) = some r := by
  have e : rendererLit ++ rest = '\x7b' :: ("\x7brenderer :qquery".toList ++ rest) := rfl
  rw [e]
  unfold scanMatch
  have hpre : startsWithChars rendererLit
      ('\x7b' :: ("\x7brenderer :qquery".toList ++ rest)) = true :=
    startsWithChars_append rendererLit rest
  have hdrop : ('\x7b' :: ("\x7brenderer :qquery".toList ++ rest)).drop
      rendererLit.length = rest :=
    List.drop_left rendererLit rest
  rw [if_pos hpre, hdrop, h]

theorem splitComma_no_comma : ∀ (t : List Char), ',' ∉ t → splitComma t = [t]
  | [], _ => rfl
  | c :: t, h => by
    have hcne : ¬(c = ',') := by
      intro hceq
      subst hceq
      exact h (List.mem_cons_self _ _)
    unfold splitComma
    rw [if_neg hcne, splitComma_no_comma t (fun ht => h (List.mem_cons_of_mem _ ht))]

theorem splitComma_append_comma : ∀ (t cs : List Char), ',' ∉ t →
    splitComma (t ++ ',' :: cs) = t :: splitComma cs
  | [], cs, _ => by
    rw [List.nil_append]
    simp only [splitComma]
    rw [if_pos trivial]
  | c :: t, cs, h => by
    have hcne : ¬(c = ',') := by
      intro hceq
      subst hceq
      exact h (List.mem_cons_self _ _)
    rw [List.cons_append]
    simp only [splitComma]
    rw [if_neg hcne, splitComma_append_comma t cs (fun ht => h (List.mem_cons_of_mem _ ht))]

theorem splitComma_joinComma : ∀ (t : List Char) (ts : List (List Char)),
    ',' ∉ t → (∀ u ∈ ts, ',' ∉ u) →
    splitComma (joinComma (t :: ts)) = t :: ts.map (fun u => ' ' :: u)
  | t, [], ht, _ => by
    show splitComma (joinComma [t]) = [t]
    rw [show joinComma [t] = t from rfl, splitComma_no_comma t ht]
  | t, u :: ts, ht, hts => by
    show splitComma (t ++ ',' :: ' ' :: joinComma (u :: ts)) =
      t :: (u :: ts).map (fun v => ' ' :: v)
    rw [splitComma_append_comma t _ ht]
    congr 1
    simp only [splitComma]
    rw [if_neg (show ¬(' ' = ',') by decide),
      splitComma_joinComma u ts (hts u (List.mem_cons_self _ _))
        (fun v hv => hts v (List.mem_cons_of_mem _ hv)), List.map_cons]

theorem trimChars_id (t : List Char)
    (h1 : t.dropWhile isJsWhitespace = t)
    (h2 : t.reverse.dropWhile isJsWhitespace = t.reverse) :
    trimChars t = t := by
  unfold trimChars
  rw [h1, h2, List.reverse_reverse]

theorem trimChars_space (t : List Char)
    (h1 : t.dropWhile isJsWhitespace = t)
    (h2 : t.reverse.dropWhile isJsWhitespace = t.reverse) :
    trimChars (' ' :: t) = t := by
  unfold trimChars
  rw [List.dropWhile_cons, if_pos (show isJsWhitespace ' ' = true from rfl),
    h1, h2, List.reverse_reverse]

theorem head_not_ws {c : Char} {t : List Char}
    (h : (c :: t).dropWhile isJsWhitespace = c :: t) : isJsWhitespace c = false := by
  cases hcc : isJsWhitespace c with
  | false => rfl
  | true =>
    rw [List.dropWhile_cons, if_pos hcc] at h
    have hle := (List.dropWhile_sublist (l := t) (p := isJsWhitespace)).length_le
    rw [h] at hle
    simp at hle

theorem joinComma_cons_structure (t : List Char) (ts : List (List Char)) :
    ∃ rest, joinComma (t :: ts) = t ++ rest := by
  cases ts with
  | nil => exact ⟨[], by simp [joinComma]⟩
  | cons u ts => exact ⟨',' :: ' ' :: joinComma (u :: ts), rfl⟩

theorem joinComma_no_lineTerm : ∀ (ts : List (List Char)),
    (∀ u ∈ ts, ∀ c ∈ u, isLineTerminator c = false) →
    ∀ c ∈ joinComma ts, isLineTerminator c = false
  | [], _, c, hc => absurd hc (List.not_mem_nil c)
  | [t], h, c, hc => h t (List.mem_cons_self _ _) c hc
  | t :: u :: ts, h, c, hc => by
    have hc' : c ∈ t ++ ',' :: ' ' :: joinComma (u :: ts) := hc
    rcases List.mem_append.mp hc' with h1 | h1
    · exact h t (List.mem_cons_self _ _) c h1
    · rcases List.mem_cons.mp h1 with rfl | h2
      · rfl
      · rcases List.mem_cons.mp h2 with rfl | h3
        · rfl
        · exact joinComma_no_lineTerm (u :: ts)
            (fun v hv => h v (List.mem_cons_of_mem _ hv)) c h3

theorem scan_of_generate (t : List Char) (ts : List (List Char))
    (hne : t ≠ [])
    (hlead : t.dropWhile isJsWhitespace = t)
    (hnl : ∀ u ∈ t :: ts, ∀ c ∈ u, isLineTerminator c = false) :
    scanMatch (rendererLit ++ (',' :: ' ' :: (joinComma (t :: ts) ++ ['\x7d', '\x7d']))) =
      some (joinComma (t :: ts)) := by
  apply scanMatch_lit
  apply matchAfterLit_comma
  · intro c hc
    obtain ⟨rest, hrest⟩ := joinComma_cons_structure t ts
    rw [hrest] at hc
    cases t with
    | nil => exact absurd rfl hne
    | cons c0 t' =>
      rw [List.cons_append] at hc
      simp only [List.head?_cons, Option.some.injEq] at hc
      rw [← hc]
      exact head_not_ws hlead
  · exact joinComma_no_lineTerm (t :: ts) hnl

/-- Claim C10, counterexample: the tag name `"a\nb"` meets every condition
stated in the claim — non-empty, no comma, no `\x7d\x7d` substring, no
leading or trailing whitespace — yet the round trip through
`generateRendererQuery` and `parseRendererQuery` yields `[]`, because the
regex dot does not match the embedded line terminator. -/
theorem C10_counterexample :
    (∀ s ∈ ["a\nb"], s.toList ≠ [] ∧ ',' ∉ s.toList ∧
      containsTwoBraces s.toList = false ∧
      s.toList.dropWhile isJsWhitespace = s.toList ∧
      s.toList.reverse.dropWhile isJsWhitespace = s.toList.reverse) ∧
    parseRendererQuery (generateRendererQuery ["a\nb"]) = [] ∧
    parseRendererQuery (generateRendererQuery ["a\nb"]) ≠ ["a\nb"] := by
  decide

/-- Claim C10 (amended): for every list of tag names in which each name is
non-empty, contains no comma, no `\x7d\x7d` substring, no leading or
trailing whitespace, and no line-terminator character, parsing a block
whose content is exactly the directive produced by `generateRendererQuery`
yields the original list; the empty list round trips to the empty list. -/
theorem C10_amended (tagNames : List String)
    (hne : ∀ s ∈ tagNames, s.toList ≠ [])
    (hcomma : ∀ s ∈ tagNames, ',' ∉ s.toList)
    (hbraces : ∀ s ∈ tagNames, containsTwoBraces s.toList = false)
    (hlead : ∀ s ∈ tagNames, s.toList.dropWhile isJsWhitespace = s.toList)
    (htrail : ∀ s ∈ tagNames,
      s.toList.reverse.dropWhile isJsWhitespace = s.toList.reverse)
    (hnl : ∀ s ∈ tagNames, ∀ c ∈ s.toList, isLineTerminator c = false) :
    parseRendererQuery (generateRendererQuery tagNames) = tagNames := by
  cases tagNames with
  | nil => rfl
  | cons t ts =>
    have hgen : generateRendererQuery (t :: ts) =
        String.mk (rendererLit ++
          (',' :: ' ' :: (joinComma ((t :: ts).map String.toList) ++ ['\x7d', '\x7d']))) := by
      unfold generateRendererQuery
      rw [if_neg (by simp)]
      congr 1
    have hscan : scanMatch ((generateRendererQuery (t :: ts)).toList) =
        some (joinComma ((t :: ts).map String.toList)) := by
      rw [hgen]
      rw [show ∀ L : List Char, (String.mk L).toList = L from fun _ => rfl]
      exact scan_of_generate t.toList (ts.map String.toList)
        (hne t (List.mem_cons_self _ _))
        (hlead t (List.mem_cons_self _ _))
        (by
          intro u hu c hc
          rcases List.mem_cons.mp hu with rfl | hu'
          · exact hnl t (List.mem_cons_self _ _) c hc
          · obtain ⟨s, hs, rfl⟩ := List.mem_map.mp hu'
            exact hnl s (List.mem_cons_of_mem _ hs) c hc)
    unfold parseRendererQuery
    rw [hscan]
    have hJne : joinComma ((t :: ts).map String.toList) ≠ [] := by
      obtain ⟨rest, hrest⟩ :=
        joinComma_cons_structure t.toList (ts.map String.toList)
      rw [show ((t :: ts).map String.toList) = t.toList :: ts.map String.toList
        from rfl, hrest]
      intro habs
      exact hne t (List.mem_cons_self _ _) (List.append_eq_nil.mp habs).1
    show (if (joinComma ((t :: ts).map String.toList)).isEmpty = true then []
          else (splitComma (joinComma ((t :: ts).map String.toList))).map
            (fun g => String.mk (trimChars g))) = t :: ts
    rw [if_neg (by simpa using hJne)]
    rw [show ((t :: ts).map String.toList) = t.toList :: ts.map String.toList from rfl]
    rw [splitComma_joinComma t.toList (ts.map String.toList)
      (hcomma t (List.mem_cons_self _ _))
      (by
        intro u hu
        obtain ⟨s, hs, rfl⟩ := List.mem_map.mp hu
        exact hcomma s (List.mem_cons_of_mem _ hs))]
    rw [List.map_cons]
    congr 1
    · rw [trimChars_id t.toList (hlead t (List.mem_cons_self _ _))
        (htrail t (List.mem_cons_self _ _)), mk_toList]
    · rw [List.map_map, List.map_map]
      have hid : ∀ s ∈ ts,
          (((fun g => String.mk (trimChars g)) ∘ fun u => ' ' :: u) ∘ String.toList) s
            = id s := by
        intro s hs
        show String.mk (trimChars (' ' :: s.toList)) = s
        rw [trimChars_space s.toList (hlead s (List.mem_cons_of_mem _ hs))
          (htrail s (List.mem_cons_of_mem _ hs)), mk_toList]
      rw [List.map_congr_left hid, List.map_id]

/-- Claim C10, witness: a two-name round trip through the amended
statement. -/
theorem C10_witness :
    parseRendererQuery (generateRendererQuery ["alpha", "beta c"]) =
      ["alpha", "beta c"] :=
  C10_amended ["alpha", "beta c"]
    (by decide) (by decide) (by decide) (by decide) (by decide) (by decide)

end QuickQuery
